import Mathlib

set_option maxRecDepth 4000

namespace Coursplit

/-- Error kinds raised by the engine (all surfaced as `ValueError` in the source,
distinguished here by which check raised them). -/
inductive PyErr where
  | formatError
  | notFoundError
  | noCandidatesError
  | thresholdNotMetError
deriving DecidableEq, Repr

/-- A wall-clock time, as produced by `datetime.strptime(...).time()`. -/
structure ClockTime where
  hour : Nat
  minute : Nat
  second : Nat
deriving DecidableEq, Repr

/-- Seconds since midnight; `datetime.time` comparison is lexicographic on
(hour, minute, second), which agrees with this on in-range fields. -/
def ClockTime.toSec (t : ClockTime) : Nat :=
  t.hour * 3600 + t.minute * 60 + t.second

/-- Weekday names used by the schedule catalog. -/
inductive Weekday where
  | monday | tuesday | wednesday | thursday | friday
deriving DecidableEq, Repr

/-- One block of the schedule catalog (an entry of `schedule["blocks"]`),
with the time fields still in their string form as in the JSON file. -/
structure Block where
  slot : String
  days : List Weekday
  start_time : String
  end_time : String
deriving DecidableEq, Repr

/-- The loaded schedule JSON. -/
structure Schedule where
  blocks : List Block
deriving DecidableEq, Repr

/-- One cleaned roster row: after `cleanExcel` every cell is a
whitespace-normalized string (NaN becomes the empty string). -/
structure Row where
  id : String
  crs_cde : String
  dayM : String
  dayT : String
  dayW : String
  dayR : String
  dayF : String
  begin_time : String
  end_time : String
deriving DecidableEq, Repr

instance instDecEqExcept {ε α : Type} [DecidableEq ε] [DecidableEq α] :
    DecidableEq (Except ε α) := fun x y =>
  match x, y with
  | .ok a, .ok b =>
    if h : a = b then .isTrue (congrArg Except.ok h)
    else .isFalse (fun hc => h (Except.ok.inj hc))
  | .error e, .error f =>
    if h : e = f then .isTrue (congrArg Except.error h)
    else .isFalse (fun hc => h (Except.error.inj hc))
  | .ok _, .error _ => .isFalse (fun hc => Except.noConfusion hc)
  | .error _, .ok _ => .isFalse (fun hc => Except.noConfusion hc)

/-- Strict lexicographic order on character lists by code point: Python's
string `<`. -/
def lexLt : List Char → List Char → Bool
  | _, [] => false
  | [], _ :: _ => true
  | a :: as, b :: bs =>
    decide (a.toNat < b.toNat) || (decide (a.toNat = b.toNat) && lexLt as bs)

/-- Python's string `<`. -/
def strLt (a b : String) : Bool := lexLt a.data b.data

/-- Python's string `<=` (totality: `s <= t` iff not `t < s`). -/
def strLe (a b : String) : Bool := !(lexLt b.data a.data)

/-- The canonical slot-label ordering: ascending Python string order. -/
def slotLe (a b : String) : Prop := strLe a b = true

instance : DecidableRel slotLe :=
  fun a b => inferInstanceAs (Decidable (strLe a b = true))

/-- Split a character list at every colon; models the shape imposed by the
`strptime` format strings `%H:%M:%S` and `%H:%M` (fields separated by
literal colons, whole string consumed). -/
def splitColon : List Char → List (List Char)
  | [] => [[]]
  | c :: cs =>
    if c = ':' then [] :: splitColon cs
    else
      match splitColon cs with
      | [] => [[c]]
      | t :: ts => (c :: t) :: ts

/-- A 1- or 2-digit ASCII field, as matched by the `strptime` directive
patterns for `%H`, `%M`, `%S`. -/
def isTok (t : List Char) : Bool :=
  (t.length = 1 || t.length = 2) && t.all Char.isDigit

/-- Numeric value of a digit field. -/
def tokVal (t : List Char) : Nat :=
  t.foldl (fun acc c => acc * 10 + (c.toNat - 48)) 0

/-- Model of `parseTime` on an actual string: `datetime.strptime(s, "%H:%M:%S")`
falling back to `"%H:%M"`.  The `%H` pattern accepts 1-2 digit values up to
23, `%M` up to 59; `%S` accepts up to 61 but the `datetime` constructor then
rejects 60 and 61, so the net acceptance for seconds is ≤ 59. -/
def parseTimeStr (s : String) : Option ClockTime :=
  match splitColon s.data with
  | [h, m] =>
    if isTok h ∧ isTok m ∧ tokVal h ≤ 23 ∧ tokVal m ≤ 59 then
      some ⟨tokVal h, tokVal m, 0⟩
    else none
  | [h, m, sec] =>
    if isTok h ∧ isTok m ∧ isTok sec ∧ tokVal h ≤ 23 ∧ tokVal m ≤ 59 ∧ tokVal sec ≤ 59 then
      some ⟨tokVal h, tokVal m, tokVal sec⟩
    else none
  | _ => none

/-- A Python value handed to `parseTime`: a string, `None`, or some other
non-string value (the `isinstance(time_str, str)` check only cares which). -/
inductive PyVal where
  | pstr (s : String)
  | pnone
  | pint (n : Int)
deriving DecidableEq, Repr

/-- Model of `parseTime`: rejects non-strings, then tries the two formats;
any failure is the `FormatError` `ValueError`. -/
def parseTime : PyVal → Except PyErr ClockTime
  | .pstr s =>
    match parseTimeStr s with
    | some t => .ok t
    | none => .error .formatError
  | _ => .error .formatError

/-- Does a day-flag cell survive `.strip()` as non-empty (Python truthiness
of the stripped cell)? -/
def hasInk (s : String) : Bool :=
  s.data.any (fun c => !(c = ' ' || c = '\t' || c = '\n' || c = '\r'))

/-- The weekday list built by `courseOverlapSlot` from the M/T/W/R/F cells. -/
def courseDays (r : Row) : List Weekday :=
  (if hasInk r.dayM then [Weekday.monday] else []) ++
  (if hasInk r.dayT then [Weekday.tuesday] else []) ++
  (if hasInk r.dayW then [Weekday.wednesday] else []) ++
  (if hasInk r.dayR then [Weekday.thursday] else []) ++
  (if hasInk r.dayF then [Weekday.friday] else [])

/-- Whether `set(course_days).intersection(slot_days)` is non-empty. -/
def daysIntersect (r : Row) (b : Block) : Bool :=
  (courseDays r).any (fun d => b.days.contains d)

/-- Model of `courseOverlapSlot` from backend.py: day check first, then the four time
parses (course start, course end, slot start, slot end, in that order; a
parse failure is re-raised), then the inclusive interval test.  The
`all([...])` truthiness guard never fires since time objects are always
truthy in current Python. -/
def courseOverlapSlot (r : Row) (b : Block) : Except PyErr Bool :=
  if daysIntersect r b = false then .ok false
  else
    match parseTime (.pstr r.begin_time), parseTime (.pstr r.end_time),
          parseTime (.pstr b.start_time), parseTime (.pstr b.end_time) with
    | .ok cs, .ok ce, .ok ss, .ok se =>
      .ok (decide (cs.toSec ≤ se.toSec ∧ ss.toSec ≤ ce.toSec))
    | .error e, _, _, _ => .error e
    | _, .error e, _, _ => .error e
    | _, _, .error e, _ => .error e
    | _, _, _, .error e => .error e

/-- Labels of the blocks a single roster row overlaps, in block order. -/
def rowBusy (r : Row) : List Block → Except PyErr (List String)
  | [] => .ok []
  | b :: bs =>
    match courseOverlapSlot r b with
    | .error e => .error e
    | .ok ov =>
      match rowBusy r bs with
      | .error e => .error e
      | .ok rest => .ok (if ov then b.slot :: rest else rest)

/-- The row loop of `getBusySlots`: rows whose `begin_time` or `end_time`
cell is empty (falsy) are skipped before any parsing. -/
def busyLabels (sch : Schedule) : List Row → Except PyErr (List String)
  | [] => .ok []
  | r :: rs =>
    if r.begin_time ≠ "" ∧ r.end_time ≠ "" then
      match rowBusy r sch.blocks with
      | .error e => .error e
      | .ok l =>
        match busyLabels sch rs with
        | .error e => .error e
        | .ok rest => .ok (l ++ rest)
    else busyLabels sch rs

/-- First-occurrence deduplication (the effect of accumulating into a
Python `set` before sorting). -/
def uniqueFirstAux (seen : List String) : List String → List String
  | [] => []
  | x :: xs =>
    if x ∈ seen then uniqueFirstAux seen xs
    else x :: uniqueFirstAux (x :: seen) xs

def uniqueFirst (l : List String) : List String :=
  uniqueFirstAux [] l

/-- Model of `sorted(list(set(xs)))`: the ascending enumeration of the distinct
elements. -/
def sortDedup (l : List String) : List String :=
  List.insertionSort slotLe (uniqueFirst l)

/-- Model of `getBusySlots`: union over the student's rows of the overlapped slot
labels, deduplicated and sorted. -/
def getBusySlots (rows : List Row) (sch : Schedule) : Except PyErr (List String) :=
  match busyLabels sch rows with
  | .error e => .error e
  | .ok ls => .ok (sortDedup ls)

/-- Model of `getAllSlots`: all slot labels of the schedule, sorted ascending
(duplicates, if any, are kept). -/
def getAllSlots (sch : Schedule) : List String :=
  List.insertionSort slotLe (sch.blocks.map (·.slot))

/-- The availability list comprehension
`[slot for slot in all_slots if slot not in busy_slots]`. -/
def freeFrom (allS busy : List String) : List String :=
  allS.filter (fun s => decide (s ∉ busy))

/-- Model of `getStudentsInSection`: ids of the rows of the target section, unique in
first-seen order; `NotFoundError` when the section has no rows. -/
def getStudentsInSection (rows : List Row) (code : String) : Except PyErr (List String) :=
  let sect := rows.filter (fun r => r.crs_cde == code)
  if sect = [] then .error .notFoundError
  else .ok (uniqueFirst (sect.map (·.id)))

/-- The per-student loop of `getAvailability`, in student order; the busy
computation of the first offending student propagates its error. -/
def availFor (rows : List Row) (sch : Schedule) (allS : List String) :
    List String → Except PyErr (List (String × List String))
  | [] => .ok []
  | sid :: sids =>
    match getBusySlots (rows.filter (fun r => r.id == sid)) sch with
    | .error e => .error e
    | .ok busy =>
      match availFor rows sch allS sids with
      | .error e => .error e
      | .ok rest => .ok ((sid, freeFrom allS busy) :: rest)

/-- Model of `getAvailability`: per student of the target section, the free slots
(computed from all of that student's rows). -/
def getAvailability (rows : List Row) (sch : Schedule) (code : String) :
    Except PyErr (List (String × List String)) :=
  match getStudentsInSection rows code with
  | .error e => .error e
  | .ok ids => availFor rows sch (getAllSlots sch) ids

/-- Insert-or-append into an insertion-ordered multimap, the behaviour of
`defaultdict(list)` under Python's insertion-ordered dicts. -/
def addTo (m : List (String × List String)) (key val : String) :
    List (String × List String) :=
  match m with
  | [] => [(key, [val])]
  | (k, vs) :: rest =>
    if k = key then (k, vs ++ [val]) :: rest
    else (k, vs) :: addTo rest key val

/-- The `potential_new_sections` accumulation of `findNewSection`:
slot → eligible students, keyed in first-appearance order (empty slot
labels are skipped by the `if slot:` guard). -/
def potentialMap (avail : List (String × List String)) :
    List (String × List String) :=
  avail.foldl
    (fun m p => p.2.foldl (fun m2 slot => if slot ≠ "" then addTo m2 slot p.1 else m2) m)
    []

/-- The sort key of `findNewSection`: descending eligible count.  Python's
`sorted(..., key=len, reverse=True)` is a stable sort for this relation. -/
def descCount (a b : String × List String) : Prop :=
  b.2.length ≤ a.2.length

instance : DecidableRel descCount := fun _ _ => Nat.decLe _ _

instance : IsTotal (String × List String) descCount :=
  ⟨fun a b => Nat.le_total b.2.length a.2.length⟩

instance : IsTrans (String × List String) descCount :=
  ⟨fun _ _ _ hab hbc => le_trans hbc hab⟩

/-- Model of `findNewSection`: accumulate slot → students, fail with
`NoCandidatesError` on an empty accumulation, else stably sort by
descending student count. -/
def findNewSection (rows : List Row) (sch : Schedule) (code : String) :
    Except PyErr (List (String × List String)) :=
  match getAvailability rows sch code with
  | .error e => .error e
  | .ok avail =>
    let pot := potentialMap avail
    if pot = [] then .error .noCandidatesError
    else .ok (List.insertionSort descCount pot)

/-- Model of `proposeSections` (on already-loaded data): keep the ranked entries with
at least `minStudents` eligible students, failing with
`ThresholdNotMetError` when none survives. -/
def proposeSections (rows : List Row) (sch : Schedule) (code : String)
    (minStudents : Nat) : Except PyErr (List (String × List String)) :=
  match findNewSection rows sch code with
  | .error e => .error e
  | .ok pot =>
    let suggested := pot.filter (fun p => decide (minStudents ≤ p.2.length))
    if suggested = [] then .error .thresholdNotMetError
    else .ok suggested

/-- The block loop of `getCourseSlot`: first block (in the stored block-list
order) overlapping the given row. -/
def firstOverlap (r : Row) : List Block → Except PyErr String
  | [] => .error .notFoundError
  | b :: bs =>
    match courseOverlapSlot r b with
    | .error e => .error e
    | .ok ov => if ov then .ok b.slot else firstOverlap r bs

/-- Model of `getCourseSlot`: take the first roster row of the course
(`course_rows.iloc[0]`) and scan `schedule['blocks']` in stored order. -/
def getCourseSlot (rows : List Row) (sch : Schedule) (code : String) :
    Except PyErr String :=
  match rows.filter (fun r => r.crs_cde == code) with
  | [] => .error .notFoundError
  | r :: _ => firstOverlap r sch.blocks

/-- The split step of app.py: `remaining_students` is the list comprehension
filtering out the shifted students; the shifted list is used as given. -/
def partitionSection (originalStudents studentsToShift : List String) :
    List String × List String :=
  (originalStudents.filter (fun s => decide (s ∉ studentsToShift)), studentsToShift)

/-! ### Order theory for the canonical slot-label ordering -/

theorem lexLt_nil_right : ∀ l : List Char, lexLt l [] = false := by
  intro l
  cases l <;> rfl

theorem lexLt_nil_left (c : Char) (cs : List Char) : lexLt [] (c :: cs) = true := rfl

theorem lexLt_cons (a b : Char) (as bs : List Char) :
    lexLt (a :: as) (b :: bs) =
      (decide (a.toNat < b.toNat) || (decide (a.toNat = b.toNat) && lexLt as bs)) := rfl

theorem lexLt_irrefl : ∀ l : List Char, lexLt l l = false
  | [] => rfl
  | a :: as => by
    rw [lexLt_cons]
    simp [lexLt_irrefl as]

theorem lexLt_trans_of_not :
    ∀ (a : List Char), ∀ b c : List Char,
      lexLt b a = false → lexLt c b = false → lexLt c a = false := by
  intro a
  induction a with
  | nil => intro b c _ _; exact lexLt_nil_right c
  | cons aa as ih =>
    intro b c h1 h2
    cases b with
    | nil => rw [lexLt_nil_left] at h1; exact absurd h1 (by simp)
    | cons bb bs =>
      cases c with
      | nil => rw [lexLt_nil_left] at h2; exact absurd h2 (by simp)
      | cons cc cs =>
        rw [lexLt_cons] at h1 h2 ⊢
        simp only [Bool.or_eq_false_iff, Bool.and_eq_false_iff, decide_eq_false_iff_not,
          Nat.not_lt] at h1 h2 ⊢
        obtain ⟨h1a, h1b⟩ := h1
        obtain ⟨h2a, h2b⟩ := h2
        refine ⟨le_trans h1a h2a, ?_⟩
        rcases h2b with hne | hlt
        · exact Or.inl (by omega)
        · rcases h1b with h1ne | h1lt
          · exact Or.inl (by omega)
          · by_cases hca : cc.toNat = aa.toNat
            · exact Or.inr (ih bs cs h1lt hlt)
            · exact Or.inl hca

theorem lexLt_asymm : ∀ (l m : List Char), lexLt l m = true → lexLt m l = true → False := by
  intro l
  induction l with
  | nil =>
    intro m _ h2
    rw [lexLt_nil_right] at h2
    exact Bool.noConfusion h2
  | cons x xs ih =>
    intro m h1 h2
    cases m with
    | nil => rw [lexLt_nil_right] at h1; exact Bool.noConfusion h1
    | cons y ys =>
      rw [lexLt_cons] at h1 h2
      simp only [Bool.or_eq_true, Bool.and_eq_true, decide_eq_true_eq] at h1 h2
      rcases h1 with h1 | ⟨h1, h1'⟩ <;> rcases h2 with h2 | ⟨h2, h2'⟩
      · omega
      · omega
      · omega
      · exact ih ys h1' h2'

theorem slotLe_total (a b : String) : slotLe a b ∨ slotLe b a := by
  unfold slotLe strLe
  cases hab : lexLt b.data a.data with
  | false => left; simp
  | true =>
    cases hh : lexLt a.data b.data with
    | false => right; simp [hh]
    | true => exact absurd (lexLt_asymm _ _ hab hh) (fun h => h)

instance : IsTotal String slotLe := ⟨slotLe_total⟩

instance : IsTrans String slotLe :=
  ⟨fun a b c hab hbc => by
    unfold slotLe strLe at *
    simp only [Bool.not_eq_true'] at hab hbc ⊢
    exact lexLt_trans_of_not a.data b.data c.data hab hbc⟩

/-- The canonical list of all slot labels is sorted. -/
theorem sorted_getAllSlots (sch : Schedule) : List.Sorted slotLe (getAllSlots sch) :=
  List.sorted_insertionSort slotLe _

theorem sorted_sortDedup (l : List String) : List.Sorted slotLe (sortDedup l) :=
  List.sorted_insertionSort slotLe _

/-! ### Membership and error-propagation lemmas -/

theorem mem_uniqueFirstAux :
    ∀ (l : List String) (seen : List String) (x : String),
      x ∈ uniqueFirstAux seen l ↔ x ∈ l ∧ x ∉ seen := by
  intro l
  induction l with
  | nil => intro seen x; simp [uniqueFirstAux]
  | cons y ys ih =>
    intro seen x
    by_cases hy : y ∈ seen
    · rw [uniqueFirstAux, if_pos hy, ih]
      constructor
      · rintro ⟨hx, hns⟩; exact ⟨List.mem_cons_of_mem _ hx, hns⟩
      · rintro ⟨hx, hns⟩
        rcases List.mem_cons.mp hx with rfl | hx'
        · exact absurd hy hns
        · exact ⟨hx', hns⟩
    · rw [uniqueFirstAux, if_neg hy]
      constructor
      · intro hmem
        rcases List.mem_cons.mp hmem with rfl | hmem'
        · exact ⟨List.mem_cons_self _ _, hy⟩
        · obtain ⟨hx, hns⟩ := (ih _ _).mp hmem'
          exact ⟨List.mem_cons_of_mem _ hx, fun hc => hns (List.mem_cons_of_mem _ hc)⟩
      · rintro ⟨hx, hns⟩
        rcases List.mem_cons.mp hx with rfl | hx'
        · exact List.mem_cons_self _ _
        · by_cases hxy : x = y
          · exact hxy ▸ List.mem_cons_self _ _
          · exact List.mem_cons_of_mem _
              ((ih _ _).mpr ⟨hx', fun hc => (List.mem_cons.mp hc).elim hxy hns⟩)

theorem mem_uniqueFirst (l : List String) (x : String) :
    x ∈ uniqueFirst l ↔ x ∈ l := by
  rw [uniqueFirst, mem_uniqueFirstAux]
  simp

theorem mem_sortDedup (l : List String) (x : String) :
    x ∈ sortDedup l ↔ x ∈ l := by
  rw [sortDedup, (List.perm_insertionSort slotLe (uniqueFirst l)).mem_iff, mem_uniqueFirst]

/-- The only failure `parseTime` produces is the format error. -/
theorem parseTime_err (v : PyVal) (e : PyErr) (h : parseTime v = .error e) :
    e = .formatError := by
  cases v with
  | pstr s =>
    rw [parseTime] at h
    cases hp : parseTimeStr s <;> rw [hp] at h
    · exact (Except.error.inj h).symm
    · exact Except.noConfusion h
  | pnone => exact (Except.error.inj h).symm
  | pint n => exact (Except.error.inj h).symm

/-- The only failure `courseOverlapSlot` produces is the format error. -/
theorem courseOverlapSlot_err (r : Row) (b : Block) (e : PyErr)
    (h : courseOverlapSlot r b = .error e) : e = .formatError := by
  rw [courseOverlapSlot] at h
  by_cases hd : daysIntersect r b = false
  · rw [if_pos hd] at h; exact Except.noConfusion h
  · rw [if_neg hd] at h
    cases h1 : parseTime (.pstr r.begin_time) with
    | error e1 =>
      rw [h1] at h
      simp only [Except.error.injEq] at h
      exact h ▸ parseTime_err _ _ h1
    | ok cs =>
      rw [h1] at h
      cases h2 : parseTime (.pstr r.end_time) with
      | error e2 =>
        rw [h2] at h
        simp only [Except.error.injEq] at h
        exact h ▸ parseTime_err _ _ h2
      | ok ce =>
        rw [h2] at h
        cases h3 : parseTime (.pstr b.start_time) with
        | error e3 =>
          rw [h3] at h
          simp only [Except.error.injEq] at h
          exact h ▸ parseTime_err _ _ h3
        | ok ss =>
          rw [h3] at h
          cases h4 : parseTime (.pstr b.end_time) with
          | error e4 =>
            rw [h4] at h
            simp only [Except.error.injEq] at h
            exact h ▸ parseTime_err _ _ h4
          | ok se =>
            rw [h4] at h
            exact Except.noConfusion h

/-- The only failure `rowBusy` produces is the format error. -/
theorem rowBusy_err (r : Row) :
    ∀ (blocks : List Block) (e : PyErr), rowBusy r blocks = .error e → e = .formatError := by
  intro blocks
  induction blocks with
  | nil => intro e h; exact Except.noConfusion h
  | cons b bs ih =>
    intro e h
    rw [rowBusy] at h
    cases h1 : courseOverlapSlot r b with
    | error e1 =>
      rw [h1] at h
      exact (Except.error.inj h) ▸ courseOverlapSlot_err r b e1 h1
    | ok ov =>
      rw [h1] at h
      cases h2 : rowBusy r bs with
      | error e2 =>
        rw [h2] at h
        exact (Except.error.inj h) ▸ ih e2 h2
      | ok rest =>
        rw [h2] at h
        exact Except.noConfusion h

/-- The only failure `busyLabels` produces is the format error. -/
theorem busyLabels_err (sch : Schedule) :
    ∀ (rows : List Row) (e : PyErr), busyLabels sch rows = .error e → e = .formatError := by
  intro rows
  induction rows with
  | nil => intro e h; exact Except.noConfusion h
  | cons r rs ih =>
    intro e h
    rw [busyLabels] at h
    by_cases hc : r.begin_time ≠ "" ∧ r.end_time ≠ ""
    · rw [if_pos hc] at h
      cases h1 : rowBusy r sch.blocks with
      | error e1 =>
        rw [h1] at h
        exact (Except.error.inj h) ▸ rowBusy_err r sch.blocks e1 h1
      | ok l =>
        rw [h1] at h
        cases h2 : busyLabels sch rs with
        | error e2 =>
          rw [h2] at h
          exact (Except.error.inj h) ▸ ih e2 h2
        | ok rest =>
          rw [h2] at h
          exact Except.noConfusion h
    · rw [if_neg hc] at h
      exact ih e h

/-- Every label `rowBusy` collects is the label of one of the blocks. -/
theorem rowBusy_mem (r : Row) :
    ∀ (blocks : List Block) (l : List String), rowBusy r blocks = .ok l →
      ∀ s ∈ l, s ∈ blocks.map Block.slot := by
  intro blocks
  induction blocks with
  | nil =>
    intro l h s hs
    rw [rowBusy] at h
    rw [← Except.ok.inj h] at hs
    exact absurd hs (List.not_mem_nil s)
  | cons b bs ih =>
    intro l h s hs
    rw [rowBusy] at h
    cases h1 : courseOverlapSlot r b <;> rw [h1] at h
    · exact Except.noConfusion h
    · cases h2 : rowBusy r bs <;> rw [h2] at h
      · exact Except.noConfusion h
      · rename_i ov rest
        rw [← Except.ok.inj h] at hs
        rw [List.map_cons]
        cases ov with
        | false =>
          simp only [if_neg (Bool.false_ne_true)] at hs
          exact List.mem_cons_of_mem _ (ih rest h2 s hs)
        | true =>
          simp only [if_pos rfl] at hs
          rcases List.mem_cons.mp hs with rfl | hs'
          · exact List.mem_cons_self _ _
          · exact List.mem_cons_of_mem _ (ih rest h2 s hs')

/-- Every label `busyLabels` collects is the label of one of the blocks. -/
theorem busyLabels_mem (sch : Schedule) :
    ∀ (rows : List Row) (ls : List String), busyLabels sch rows = .ok ls →
      ∀ s ∈ ls, s ∈ sch.blocks.map Block.slot := by
  intro rows
  induction rows with
  | nil =>
    intro ls h s hs
    rw [busyLabels] at h
    rw [← Except.ok.inj h] at hs
    exact absurd hs (List.not_mem_nil s)
  | cons r rs ih =>
    intro ls h s hs
    rw [busyLabels] at h
    by_cases hc : r.begin_time ≠ "" ∧ r.end_time ≠ ""
    · rw [if_pos hc] at h
      cases h1 : rowBusy r sch.blocks <;> rw [h1] at h
      · exact Except.noConfusion h
      · cases h2 : busyLabels sch rs <;> rw [h2] at h
        · exact Except.noConfusion h
        · rename_i l rest
          rw [← Except.ok.inj h] at hs
          rcases List.mem_append.mp hs with hl | hr
          · exact rowBusy_mem r sch.blocks l h1 s hl
          · exact ih rest h2 s hr
    · rw [if_neg hc] at h
      exact ih ls h s hs

/-- Busy labels are labels of catalog blocks. -/
theorem getBusySlots_subset (rows : List Row) (sch : Schedule) (busy : List String)
    (h : getBusySlots rows sch = .ok busy) :
    ∀ s ∈ busy, s ∈ sch.blocks.map Block.slot := by
  rw [getBusySlots] at h
  cases h1 : busyLabels sch rows <;> rw [h1] at h
  · exact Except.noConfusion h
  · rename_i ls
    intro s hs
    rw [← Except.ok.inj h] at hs
    exact busyLabels_mem sch rows ls h1 s ((mem_sortDedup ls s).mp hs)

theorem parseTime_of_none (s : String) (h : parseTimeStr s = none) :
    parseTime (.pstr s) = .error .formatError := by
  rw [parseTime, h]

theorem parseTime_of_some (s : String) (t : ClockTime) (h : parseTimeStr s = some t) :
    parseTime (.pstr s) = .ok t := by
  rw [parseTime, h]

/-- A row with a malformed (non-empty-but-unparsable) time aborts the overlap
test as soon as the day sets intersect. -/
theorem courseOverlapSlot_malformed (r : Row) (b : Block)
    (hd : daysIntersect r b = true)
    (hmal : parseTimeStr r.begin_time = none ∨ parseTimeStr r.end_time = none) :
    courseOverlapSlot r b = .error .formatError := by
  rw [courseOverlapSlot, if_neg (by simp [hd])]
  cases hbp : parseTimeStr r.begin_time with
  | none =>
    rw [parseTime_of_none _ hbp]
    cases parseTime (.pstr r.end_time) <;> cases parseTime (.pstr b.start_time) <;>
      cases parseTime (.pstr b.end_time) <;> rfl
  | some t =>
    rcases hmal with hb | he
    · rw [hbp] at hb; exact Option.noConfusion hb
    · rw [parseTime_of_some _ _ hbp, parseTime_of_none _ he]
      cases parseTime (.pstr b.start_time) <;> cases parseTime (.pstr b.end_time) <;> rfl

/-- A block with no common weekday is reported as a non-overlap without
looking at the time strings at all. -/
theorem courseOverlapSlot_no_days (r : Row) (b : Block)
    (hd : daysIntersect r b = false) : courseOverlapSlot r b = .ok false := by
  rw [courseOverlapSlot, if_pos hd]

theorem rowBusy_malformed (r : Row) :
    ∀ blocks : List Block, (∃ b ∈ blocks, daysIntersect r b = true) →
      (parseTimeStr r.begin_time = none ∨ parseTimeStr r.end_time = none) →
      rowBusy r blocks = .error .formatError := by
  intro blocks
  induction blocks with
  | nil => rintro ⟨b, hb, _⟩ _; exact absurd hb (List.not_mem_nil b)
  | cons b0 bs ih =>
    rintro ⟨b, hb, hbd⟩ hmal
    rw [rowBusy]
    by_cases hd0 : daysIntersect r b0 = true
    · rw [courseOverlapSlot_malformed r b0 hd0 hmal]
    · have h0 : courseOverlapSlot r b0 = .ok false :=
        courseOverlapSlot_no_days r b0 (by revert hd0; cases daysIntersect r b0 <;> simp)
      have hbbs : b ∈ bs := by
        rcases List.mem_cons.mp hb with rfl | h
        · exact absurd hbd hd0
        · exact h
      rw [h0, ih ⟨b, hbbs, hbd⟩ hmal]

theorem busyLabels_malformed (sch : Schedule) :
    ∀ (rows : List Row) (r : Row), r ∈ rows →
      r.begin_time ≠ "" → r.end_time ≠ "" →
      (∃ b ∈ sch.blocks, daysIntersect r b = true) →
      (parseTimeStr r.begin_time = none ∨ parseTimeStr r.end_time = none) →
      busyLabels sch rows = .error .formatError := by
  intro rows
  induction rows with
  | nil => intro r hr _ _ _ _; exact absurd hr (List.not_mem_nil r)
  | cons q qs ih =>
    intro r hr hb he hex hmal
    rw [busyLabels]
    rcases List.mem_cons.mp hr with rfl | hr'
    · rw [if_pos ⟨hb, he⟩, rowBusy_malformed r sch.blocks hex hmal]
    · by_cases hq : q.begin_time ≠ "" ∧ q.end_time ≠ ""
      · rw [if_pos hq]
        cases h1 : rowBusy q sch.blocks with
        | error e1 =>
          have he1 : e1 = .formatError := rowBusy_err q sch.blocks e1 h1
          rw [he1]
        | ok l =>
          rw [ih r hr' hb he hex hmal]
      · rw [if_neg hq]
        exact ih r hr' hb he hex hmal

/-! ### Shape lemmas for time strings -/

theorem splitColon_ne_nil : ∀ l : List Char, splitColon l ≠ [] := by
  intro l
  cases l with
  | nil => simp [splitColon]
  | cons c cs =>
    by_cases hc : c = ':'
    · rw [splitColon, if_pos hc]; simp
    · rw [splitColon, if_neg hc]
      cases splitColon cs <;> simp

theorem splitColon_append00 : ∀ l : List Char,
    splitColon (l ++ [':', '0', '0']) = splitColon l ++ [['0', '0']] := by
  intro l
  induction l with
  | nil => rfl
  | cons c cs ih =>
    by_cases hc : c = ':'
    · rw [List.cons_append, splitColon, if_pos hc, ih, splitColon, if_pos hc,
        List.cons_append]
    · cases h : splitColon cs with
      | nil => exact absurd h (splitColon_ne_nil cs)
      | cons t ts =>
        rw [List.cons_append, splitColon, if_neg hc, ih, h, splitColon, if_neg hc, h]
        exact rfl

theorem append00_data (s : String) :
    (s ++ ":00").data = s.data ++ [':', '0', '0'] := by
  rw [String.data_append]

/-! ### `getCourseSlot` scan lemmas -/

theorem firstOverlap_ok (r : Row) :
    ∀ (blocks : List Block) (s : String), firstOverlap r blocks = .ok s →
      ∃ l1 b l2, blocks = l1 ++ b :: l2 ∧ b.slot = s ∧
        courseOverlapSlot r b = .ok true ∧
        ∀ b2 ∈ l1, courseOverlapSlot r b2 = .ok false := by
  intro blocks
  induction blocks with
  | nil => intro s h; exact Except.noConfusion h
  | cons b0 bs ih =>
    intro s h
    rw [firstOverlap] at h
    cases h1 : courseOverlapSlot r b0 with
    | error e => rw [h1] at h; exact Except.noConfusion h
    | ok ov =>
      rw [h1] at h
      cases ov with
      | true =>
        have h2 : Except.ok b0.slot = Except.ok s := h
        exact ⟨[], b0, bs, rfl, Except.ok.inj h2, h1,
          fun b2 hb2 => absurd hb2 (List.not_mem_nil b2)⟩
      | false =>
        have h2 : firstOverlap r bs = Except.ok s := h
        obtain ⟨l1, b, l2, heq, hslot, hov, hpre⟩ := ih s h2
        refine ⟨b0 :: l1, b, l2, by rw [heq, List.cons_append], hslot, hov, ?_⟩
        intro b2 hb2
        rcases List.mem_cons.mp hb2 with rfl | h2
        · exact h1
        · exact hpre b2 h2

theorem firstOverlap_none (r : Row) :
    ∀ blocks : List Block, (∀ b ∈ blocks, courseOverlapSlot r b = .ok false) →
      firstOverlap r blocks = .error .notFoundError := by
  intro blocks
  induction blocks with
  | nil => intro _; rfl
  | cons b0 bs ih =>
    intro hall
    rw [firstOverlap, hall b0 (List.mem_cons_self _ _)]
    exact ih (fun b hb => hall b (List.mem_cons_of_mem _ hb))

/-! ### Concrete fixture data -/

/-- Catalog block "A": Monday 09:00-10:00. -/
def blockA : Block := ⟨"A", [.monday], "09:00", "10:00"⟩

/-- Catalog block "B": Tuesday 09:00-10:00. -/
def blockB : Block := ⟨"B", [.tuesday], "09:00", "10:00"⟩

/-- Catalog block "C": Monday 10:00-11:00 (starts when `rowS1` ends). -/
def blockC : Block := ⟨"C", [.monday], "10:00", "11:00"⟩

/-- A two-slot catalog. -/
def schAB : Schedule := ⟨[blockA, blockB]⟩

/-- A one-slot, Tuesday-only catalog. -/
def schT : Schedule := ⟨[blockB]⟩

/-- Student s1, course "X", Monday 09:00-10:00. -/
def rowS1 : Row := ⟨"s1", "X", "M", "", "", "", "", "09:00", "10:00"⟩

/-- Student s2, course "X", Tuesday 09:00-10:00. -/
def rowS2 : Row := ⟨"s2", "X", "", "T", "", "", "", "09:00", "10:00"⟩

/-- A Monday row whose two time cells are non-empty but unparsable. -/
def rowBad : Row := ⟨"s9", "X", "M", "", "", "", "", "junk", "junk"⟩

/-- A Monday row with an empty `begin_time` and garbage `end_time`. -/
def rowHalf : Row := ⟨"s7", "X", "M", "", "", "", "", "", "junk"⟩

/-- Block "B" on Monday (same window as block "A"). -/
def blockBmon : Block := ⟨"B", [.monday], "09:00", "10:00"⟩

/-- Block "A" on Monday. -/
def blockAmon : Block := ⟨"A", [.monday], "09:00", "10:00"⟩

/-- A catalog whose stored block order ("B" before "A") disagrees with the
canonical label order. -/
def schBA : Schedule := ⟨[blockBmon, blockAmon]⟩

/-! ### The claims -/

/-- Claim C1 counterexample: with two students of course "X" whose only free
slots are "B" and "A" respectively, the eligible counts tie at 1 but
`findNewSection` returns "B" before "A" (dict insertion order), not the
ascending canonical label order. -/
theorem C1_counterexample :
    findNewSection [rowS1, rowS2] schAB "X" = .ok [("B", ["s1"]), ("A", ["s2"])] ∧
    strLt "A" "B" = true := by decide

/-- Claim C1 (amended): the ranking of `findNewSection` is sorted by weakly
descending eligible-student count and is a permutation of the slot-to-students
accumulation; entries with equal counts stay in the accumulation's
first-appearance order, which need not be ascending label order. -/
theorem C1_ranking_sorted (rows : List Row) (sch : Schedule) (code : String)
    (out : List (String × List String))
    (h : findNewSection rows sch code = .ok out) :
    List.Sorted descCount out ∧
    ∃ avail, getAvailability rows sch code = .ok avail ∧
      List.Perm out (potentialMap avail) := by
  rw [findNewSection] at h
  cases ha : getAvailability rows sch code with
  | error e => rw [ha] at h; exact Except.noConfusion h
  | ok avail =>
    rw [ha] at h
    have h2 : (if potentialMap avail = [] then Except.error PyErr.noCandidatesError
        else Except.ok (List.insertionSort descCount (potentialMap avail))) =
        Except.ok out := h
    by_cases hp : potentialMap avail = []
    · rw [if_pos hp] at h2; exact Except.noConfusion h2
    · rw [if_neg hp] at h2
      have hout := (Except.ok.inj h2).symm
      subst hout
      exact ⟨List.sorted_insertionSort descCount _, avail, rfl,
        List.perm_insertionSort descCount _⟩

/-- Claim C1 witness: the amended statement at the concrete tied roster. -/
theorem C1_witness :
    List.Sorted descCount [("B", ["s1"]), ("A", ["s2"])] ∧
    ∃ avail, getAvailability [rowS1, rowS2] schAB "X" = .ok avail ∧
      List.Perm [("B", ["s1"]), ("A", ["s2"])] (potentialMap avail) :=
  C1_ranking_sorted [rowS1, rowS2] schAB "X" _ (by decide)

/-- Claim C2 counterexample: a roster row whose non-empty `begin_time` and
`end_time` are unparsable is silently skipped (no `FormatError`) because its
Monday flag never intersects the Tuesday-only catalog, so the time strings
are never parsed. -/
theorem C2_counterexample :
    parseTimeStr "junk" = none ∧ rowBad.begin_time = "junk" ∧
    rowBad.end_time = "junk" ∧ getBusySlots [rowBad] schT = .ok [] := by decide

/-- Claim C2 (amended): a considered row (both time cells non-empty) with a
malformed `begin_time` or `end_time` aborts `getBusySlots` with
`FormatError`, provided its weekday set intersects the weekday set of at
least one catalog block; otherwise the day check short-circuits and the row
is silently skipped. -/
theorem C2_malformed_aborts (rows : List Row) (sch : Schedule) (r : Row)
    (hmem : r ∈ rows) (hb : r.begin_time ≠ "") (he : r.end_time ≠ "")
    (hdays : ∃ b ∈ sch.blocks, daysIntersect r b = true)
    (hmal : parseTimeStr r.begin_time = none ∨ parseTimeStr r.end_time = none) :
    getBusySlots rows sch = .error .formatError := by
  rw [getBusySlots, busyLabels_malformed sch rows r hmem hb he hdays hmal]

/-- Claim C2 witness: the same malformed row does abort once the catalog has
a Monday block. -/
theorem C2_witness : getBusySlots [rowBad] schAB = .error .formatError :=
  C2_malformed_aborts [rowBad] schAB rowBad (by decide) (by decide) (by decide)
    (by decide) (by decide)

/-- Claim C9: `proposeSections` is deterministic — equal roster data, catalog
data, course code and threshold give the identical ordered result (the
embedding's insertion-ordered maps mirror Python's insertion-ordered dicts,
so there is no hidden iteration-order nondeterminism). -/
theorem C9_deterministic (rows1 rows2 : List Row) (sch1 sch2 : Schedule)
    (code1 code2 : String) (m1 m2 : Nat)
    (hr : rows1 = rows2) (hs : sch1 = sch2) (hc : code1 = code2) (hm : m1 = m2) :
    proposeSections rows1 sch1 code1 m1 = proposeSections rows2 sch2 code2 m2 := by
  rw [hr, hs, hc, hm]

/-- Claim C9 witness at a concrete invocation. -/
theorem C9_witness :
    proposeSections [rowS1, rowS2] schAB "X" 1 =
      proposeSections [rowS1, rowS2] schAB "X" 1 :=
  C9_deterministic _ _ _ _ _ _ _ _ rfl rfl rfl rfl

/-- Claim C10: a roster row with an empty `begin_time` or an empty
`end_time` is skipped entirely by `getBusySlots` — removing it leaves the
result unchanged, whatever its weekday flags or other time cell hold. -/
theorem C10_empty_time_skipped (pre post : List Row) (r : Row) (sch : Schedule)
    (h : r.begin_time = "" ∨ r.end_time = "") :
    getBusySlots (pre ++ r :: post) sch = getBusySlots (pre ++ post) sch := by
  have hb : busyLabels sch (pre ++ r :: post) = busyLabels sch (pre ++ post) := by
    induction pre with
    | nil =>
      rw [List.nil_append, List.nil_append, busyLabels,
        if_neg (by rcases h with h | h <;> simp [h])]
    | cons q qs ih =>
      rw [List.cons_append, List.cons_append, busyLabels, busyLabels]
      by_cases hq : q.begin_time ≠ "" ∧ q.end_time ≠ ""
      · rw [if_pos hq, if_pos hq, ih]
      · rw [if_neg hq, if_neg hq]; exact ih
  rw [getBusySlots, getBusySlots, hb]

/-- Claim C10 witness: a Monday row with empty `begin_time` and garbage
`end_time` contributes nothing and raises nothing. -/
theorem C10_witness :
    getBusySlots ([] ++ rowHalf :: [rowS1]) schAB = getBusySlots ([] ++ [rowS1]) schAB :=
  C10_empty_time_skipped [] [rowS1] rowHalf schAB (Or.inl rfl)

theorem daysIntersect_iff (r : Row) (b : Block) :
    daysIntersect r b = true ↔ ∃ d ∈ courseDays r, d ∈ b.days := by
  rw [daysIntersect]
  simp [List.any_eq_true]

/-- Claim C3: with all four time strings well-formed, the overlap test holds
exactly when the weekday sets intersect and the meeting starts no later than
the slot ends and ends no earlier than the slot starts (boundary touching
included). -/
theorem C3_overlap_iff (r : Row) (b : Block) (cs ce ss se : ClockTime)
    (hcs : parseTimeStr r.begin_time = some cs) (hce : parseTimeStr r.end_time = some ce)
    (hss : parseTimeStr b.start_time = some ss) (hse : parseTimeStr b.end_time = some se) :
    courseOverlapSlot r b = .ok true ↔
      ((∃ d ∈ courseDays r, d ∈ b.days) ∧
        cs.toSec ≤ se.toSec ∧ ss.toSec ≤ ce.toSec) := by
  by_cases hd : daysIntersect r b = false
  · rw [courseOverlapSlot, if_pos hd]
    constructor
    · intro h; exact absurd (Except.ok.inj h) (by simp)
    · rintro ⟨hex, _⟩
      have ht : daysIntersect r b = true := (daysIntersect_iff r b).mpr hex
      exact absurd (hd.symm.trans ht) (by simp)
  · have ht : daysIntersect r b = true := by
      revert hd; cases daysIntersect r b <;> simp
    rw [courseOverlapSlot, if_neg hd, parseTime_of_some _ _ hcs, parseTime_of_some _ _ hce,
      parseTime_of_some _ _ hss, parseTime_of_some _ _ hse]
    have hred : (Except.ok (decide (cs.toSec ≤ se.toSec ∧ ss.toSec ≤ ce.toSec)) :
        Except PyErr Bool) = .ok true ↔
        (cs.toSec ≤ se.toSec ∧ ss.toSec ≤ ce.toSec) := by
      simp [decide_eq_true_eq]
    constructor
    · intro h
      exact ⟨(daysIntersect_iff r b).mp ht, hred.mp h⟩
    · rintro ⟨_, hle⟩
      exact hred.mpr hle

/-- Claim C3 witness: the boundary-touch case — a Monday meeting ending at
10:00 overlaps the Monday slot starting at 10:00. -/
theorem C3_witness : courseOverlapSlot rowS1 blockC = .ok true :=
  (C3_overlap_iff rowS1 blockC ⟨9, 0, 0⟩ ⟨10, 0, 0⟩ ⟨10, 0, 0⟩ ⟨11, 0, 0⟩
    (by decide) (by decide) (by decide) (by decide)).mpr (by decide)

/-- Claim C4: for any student meeting rows, the busy list and the free list
are disjoint, together they cover exactly the catalog's slot labels, and the
free list is a sorted sublist of the canonical slot list (catalog order is
preserved). -/
theorem C4_busy_free_partition (rows : List Row) (sch : Schedule) (busy : List String)
    (h : getBusySlots rows sch = .ok busy) :
    (∀ s, ¬ (s ∈ busy ∧ s ∈ freeFrom (getAllSlots sch) busy)) ∧
    (∀ s, s ∈ getAllSlots sch ↔ s ∈ busy ∨ s ∈ freeFrom (getAllSlots sch) busy) ∧
    List.Sublist (freeFrom (getAllSlots sch) busy) (getAllSlots sch) ∧
    List.Sorted slotLe (freeFrom (getAllSlots sch) busy) := by
  refine ⟨?_, ?_, ?_, ?_⟩
  · rintro s ⟨hb, hf⟩
    rw [freeFrom, List.mem_filter] at hf
    exact (of_decide_eq_true hf.2) hb
  · intro s
    constructor
    · intro hall
      by_cases hb : s ∈ busy
      · exact Or.inl hb
      · exact Or.inr (by rw [freeFrom, List.mem_filter]; exact ⟨hall, decide_eq_true hb⟩)
    · intro hor
      rcases hor with hb | hf
      · have hmap := getBusySlots_subset rows sch busy h s hb
        rw [getAllSlots, List.mem_insertionSort]
        exact hmap
      · rw [freeFrom] at hf
        exact (List.filter_sublist _).subset hf
  · rw [freeFrom]
    exact List.filter_sublist _
  · rw [freeFrom]
    exact (sorted_getAllSlots sch).filter _

/-- Claim C4 witness: the cover and order properties at a concrete
one-student roster whose busy set is the slot "A". -/
theorem C4_witness :
    ("B" ∈ getAllSlots schAB ↔ "B" ∈ ["A"] ∨ "B" ∈ freeFrom (getAllSlots schAB) ["A"]) ∧
    List.Sorted slotLe (freeFrom (getAllSlots schAB) ["A"]) :=
  ⟨(C4_busy_free_partition [rowS1] schAB ["A"] (by decide)).2.1 "B",
   (C4_busy_free_partition [rowS1] schAB ["A"] (by decide)).2.2.2⟩

/-- Claim C5: `proposeSections` keeps exactly the ranked entries whose
eligible-student count reaches `minStudents`, and raises the threshold error
precisely when that filtered list is empty. -/
theorem C5_threshold (rows : List Row) (sch : Schedule) (code : String) (m : Nat)
    (pot : List (String × List String)) (h : findNewSection rows sch code = .ok pot) :
    (∀ p, p ∈ pot.filter (fun q => decide (m ≤ q.2.length)) ↔ p ∈ pot ∧ m ≤ p.2.length) ∧
    proposeSections rows sch code m =
      (if pot.filter (fun q => decide (m ≤ q.2.length)) = []
       then .error .thresholdNotMetError
       else .ok (pot.filter (fun q => decide (m ≤ q.2.length)))) := by
  constructor
  · intro p
    rw [List.mem_filter]
    simp [decide_eq_true_eq]
  · rw [proposeSections, h]

/-- Claim C5 witness: with both candidate counts below the threshold 5, the
threshold error is raised. -/
theorem C5_witness :
    proposeSections [rowS1, rowS2] schAB "X" 5 = .error .thresholdNotMetError := by
  have h := (C5_threshold [rowS1, rowS2] schAB "X" 5 [("B", ["s1"]), ("A", ["s2"])]
    (by decide)).2
  rw [if_pos (by decide)] at h
  exact h

/-- Claim C6: the split step keeps in `remaining` exactly the original
students not selected to shift, in original order (a sublist), returns the
shift list unchanged, ignores extraneous shift entries, and gives
([A, C], [B, D]) on the spec's example. -/
theorem C6_partition (o s : List String) :
    (∀ x, x ∈ (partitionSection o s).1 ↔ x ∈ o ∧ x ∉ s) ∧
    List.Sublist (partitionSection o s).1 o ∧
    (partitionSection o s).2 = s ∧
    (partitionSection o s).1 =
      (partitionSection o (s.filter (fun x => decide (x ∈ o)))).1 ∧
    partitionSection ["A", "B", "C", "D"] ["B", "D"] = (["A", "C"], ["B", "D"]) := by
  refine ⟨?_, List.filter_sublist _, rfl, ?_, by decide⟩
  · intro x
    rw [partitionSection, List.mem_filter]
    simp [decide_eq_true_eq]
  · rw [partitionSection, partitionSection]
    apply List.filter_congr
    intro x hx
    rw [decide_eq_decide]
    simp [List.mem_filter, hx]

/-- Claim C8 counterexample: with the catalog stored as ["B", "A"] (both
Monday 09:00-10:00), `getCourseSlot` returns "B", although "A" also overlaps
and precedes "B" in the canonical ascending label order. -/
theorem C8_counterexample :
    getCourseSlot [rowS1] schBA "X" = .ok "B" ∧
    courseOverlapSlot rowS1 blockAmon = .ok true ∧
    strLt "A" "B" = true ∧
    getAllSlots schBA = ["A", "B"] := by decide

/-- Claim C8 (amended): `getCourseSlot` scans the catalog blocks in their
stored (file) order, not canonical label order, testing only the first
roster row of the course: an ok result is the label of the first stored
block overlapping that row, and it fails with the not-found error when the
course has no rows or no block overlaps that first row. -/
theorem C8_first_stored_order (rows : List Row) (sch : Schedule) (code : String) :
    (rows.filter (fun r => r.crs_cde == code) = [] →
      getCourseSlot rows sch code = .error .notFoundError) ∧
    (∀ r rest, rows.filter (fun r => r.crs_cde == code) = r :: rest →
      (∀ s, getCourseSlot rows sch code = .ok s →
        ∃ l1 b l2, sch.blocks = l1 ++ b :: l2 ∧ b.slot = s ∧
          courseOverlapSlot r b = .ok true ∧
          ∀ b2 ∈ l1, courseOverlapSlot r b2 = .ok false) ∧
      ((∀ b ∈ sch.blocks, courseOverlapSlot r b = .ok false) →
        getCourseSlot rows sch code = .error .notFoundError)) := by
  constructor
  · intro hf
    rw [getCourseSlot, hf]
  · intro r rest hf
    constructor
    · intro s hs
      rw [getCourseSlot, hf] at hs
      exact firstOverlap_ok r sch.blocks s hs
    · intro hall
      rw [getCourseSlot, hf]
      exact firstOverlap_none r sch.blocks hall

/-- Claim C8 witness: the amended characterization at the stored-order
catalog ["B", "A"]. -/
theorem C8_witness :
    ∃ l1 b l2, schBA.blocks = l1 ++ b :: l2 ∧ b.slot = "B" ∧
      courseOverlapSlot rowS1 b = .ok true ∧
      ∀ b2 ∈ l1, courseOverlapSlot rowS1 b2 = .ok false :=
  ((C8_first_stored_order [rowS1] schBA "X").2 rowS1 [] (by decide)).1 "B" (by decide)

/-- Claim C7: `parseTime` rejects every non-string (such as `None`), the
empty string and `"9am"`; a successful parse always denotes a valid
wall-clock time; success forces the colon-separated 2-field or 3-field
digit shape; every in-range 2-field shape and every in-range 3-field shape
parses; and appending ":00" seconds to a parsed `HH:MM` string parses to
the same wall-clock time. -/
theorem C7_parseTime_spec :
    (∀ v t, parseTime v = .ok t → ∃ s, v = .pstr s) ∧
    parseTime .pnone = .error .formatError ∧
    parseTime (.pstr "") = .error .formatError ∧
    parseTime (.pstr "9am") = .error .formatError ∧
    (∀ s t, parseTimeStr s = some t → t.hour ≤ 23 ∧ t.minute ≤ 59 ∧ t.second ≤ 59) ∧
    (∀ s t, parseTimeStr s = some t →
      ∃ hh mm, isTok hh = true ∧ isTok mm = true ∧
        (splitColon s.data = [hh, mm] ∨
          ∃ sec, splitColon s.data = [hh, mm, sec] ∧ isTok sec = true)) ∧
    (∀ s hh mm, splitColon s.data = [hh, mm] → isTok hh = true → isTok mm = true →
      tokVal hh ≤ 23 → tokVal mm ≤ 59 →
      parseTimeStr s = some ⟨tokVal hh, tokVal mm, 0⟩) ∧
    (∀ s hh mm sec, splitColon s.data = [hh, mm, sec] → isTok hh = true →
      isTok mm = true → isTok sec = true →
      tokVal hh ≤ 23 → tokVal mm ≤ 59 → tokVal sec ≤ 59 →
      parseTimeStr s = some ⟨tokVal hh, tokVal mm, tokVal sec⟩) ∧
    (∀ s t, (splitColon s.data).length = 2 → parseTimeStr s = some t →
      parseTimeStr (s ++ ":00") = some t) := by
  refine ⟨?_, rfl, by decide, by decide, ?_, ?_, ?_, ?_, ?_⟩
  · intro v t h
    cases v with
    | pstr s => exact ⟨s, rfl⟩
    | pnone => exact Except.noConfusion h
    | pint n => exact Except.noConfusion h
  · intro s t h
    rw [parseTimeStr] at h
    split at h
    · split at h
      · rename_i hcond
        obtain ⟨h1, h2, h3, h4⟩ := hcond
        have ht := Option.some.inj h
        subst ht
        exact ⟨h3, h4, Nat.zero_le _⟩
      · exact Option.noConfusion h
    · split at h
      · rename_i hcond
        obtain ⟨h1, h2, h3, h4, h5, h6⟩ := hcond
        have ht := Option.some.inj h
        subst ht
        exact ⟨h4, h5, h6⟩
      · exact Option.noConfusion h
    · exact Option.noConfusion h
  · intro s t h
    rw [parseTimeStr] at h
    split at h
    · rename_i hh mm heq
      split at h
      · rename_i hcond
        exact ⟨hh, mm, hcond.1, hcond.2.1, Or.inl heq⟩
      · exact Option.noConfusion h
    · rename_i hh mm sec heq
      split at h
      · rename_i hcond
        exact ⟨hh, mm, hcond.1, hcond.2.1, Or.inr ⟨sec, heq, hcond.2.2.1⟩⟩
      · exact Option.noConfusion h
    · exact Option.noConfusion h
  · intro s hh mm hsp ht1 ht2 h23 h59
    rw [parseTimeStr, hsp]
    show (if (isTok hh = true) ∧ (isTok mm = true) ∧ tokVal hh ≤ 23 ∧ tokVal mm ≤ 59 then
        some (⟨tokVal hh, tokVal mm, 0⟩ : ClockTime) else none) =
      some ⟨tokVal hh, tokVal mm, 0⟩
    rw [if_pos ⟨ht1, ht2, h23, h59⟩]
  · intro s hh mm sec hsp ht1 ht2 ht3 h23 h59 hs59
    rw [parseTimeStr, hsp]
    show (if (isTok hh = true) ∧ (isTok mm = true) ∧ (isTok sec = true) ∧
        tokVal hh ≤ 23 ∧ tokVal mm ≤ 59 ∧ tokVal sec ≤ 59 then
        some (⟨tokVal hh, tokVal mm, tokVal sec⟩ : ClockTime) else none) =
      some ⟨tokVal hh, tokVal mm, tokVal sec⟩
    rw [if_pos ⟨ht1, ht2, ht3, h23, h59, hs59⟩]
  · intro s t hlen hparse
    obtain ⟨hh, mm, hsp⟩ : ∃ hh mm, splitColon s.data = [hh, mm] := by
      cases hsp : splitColon s.data with
      | nil => rw [hsp] at hlen; exact absurd hlen (by simp)
      | cons a l1 =>
        cases l1 with
        | nil => rw [hsp] at hlen; exact absurd hlen (by simp)
        | cons b l2 =>
          cases l2 with
          | nil => exact ⟨a, b, rfl⟩
          | cons c l3 => rw [hsp] at hlen; exact absurd hlen (by simp)
    rw [parseTimeStr, hsp] at hparse
    have hparse2 : (if (isTok hh = true) ∧ (isTok mm = true) ∧ tokVal hh ≤ 23 ∧
        tokVal mm ≤ 59 then some (⟨tokVal hh, tokVal mm, 0⟩ : ClockTime) else none) =
        some t := hparse
    by_cases hA : (isTok hh = true) ∧ (isTok mm = true) ∧ tokVal hh ≤ 23 ∧ tokVal mm ≤ 59
    · rw [if_pos hA] at hparse2
      have ht := Option.some.inj hparse2
      subst ht
      rw [parseTimeStr, append00_data, splitColon_append00, hsp]
      show (if (isTok hh = true) ∧ (isTok mm = true) ∧ (isTok ['0', '0'] = true) ∧
          tokVal hh ≤ 23 ∧ tokVal mm ≤ 59 ∧ tokVal ['0', '0'] ≤ 59 then
          some (⟨tokVal hh, tokVal mm, tokVal ['0', '0']⟩ : ClockTime) else none) =
        some ⟨tokVal hh, tokVal mm, 0⟩
      rw [if_pos ⟨hA.1, hA.2.1, by decide, hA.2.2.1, hA.2.2.2, by decide⟩]
      rfl
    · rw [if_neg hA] at hparse2
      exact Option.noConfusion hparse2

/-- Claim C7 witness: `"09:00"` with `":00"` appended parses to the same
wall-clock time 09:00:00, and the general in-range three-field string
`"10:30:45"` parses. -/
theorem C7_witness :
    parseTimeStr "10:30:45" = some ⟨10, 30, 45⟩ ∧
    parseTimeStr ("09:00" ++ ":00") = some ⟨9, 0, 0⟩ :=
  ⟨C7_parseTime_spec.2.2.2.2.2.2.2.1 "10:30:45" ['1', '0'] ['3', '0'] ['4', '5']
      (by decide) (by decide) (by decide) (by decide) (by decide) (by decide) (by decide),
    C7_parseTime_spec.2.2.2.2.2.2.2.2 "09:00" ⟨9, 0, 0⟩ (by decide) (by decide)⟩

end Coursplit
